import Mathlib

/-!
Shallow embedding of `organize_media.py` (repository Krutt-code/old_file_sorter).

The script scans a source tree, classifies each file by extension into one of
five categories, deduplicates by SHA-256 within each category, renames photos
and videos to `YYYYMMDD_HHMMSS_<sanitized stem><lowercased ext>`, allocates a
collision-free destination path, and copies the file.

Modelling conventions:
* A source file is a record of the attributes the script reads: its final
  path component, its byte content, its filesystem mtime, the EXIF datetime
  string found in it (if any), and two oracles saying whether opening it for
  hashing succeeds and whether the copy primitive succeeds.
* The SHA-256 digest is modelled by the byte content itself (the hash is
  idealized as collision-free; the script compares digests for equality only,
  so dedup behaviour is unchanged).
* Strings are manipulated through their underlying `List Char`, with
  structurally recursive functions, so every definition reduces in the kernel.
-/

/-- Calendar datetime as Python's `datetime` exposes it here: six fields. -/
structure PyDateTime where
  year : Nat
  month : Nat
  day : Nat
  hour : Nat
  minute : Nat
  second : Nat
deriving DecidableEq

/-- Whitespace as Python's `str.strip` / regex `\s` see it, restricted to the
ASCII range: space, tab, newline, carriage return, vertical tab, form feed.
(Python also folds some Unicode whitespace; filenames in the claims are ASCII.) -/
def isPySpace (c : Char) : Bool :=
  c = ' ' || c = '\t' || c = '\n' || c = '\r' || c = '\x0b' || c = '\x0c'

/-- Python `str.strip()`: drop whitespace from both ends. -/
def pyStrip (l : List Char) : List Char :=
  ((l.dropWhile isPySpace).reverse.dropWhile isPySpace).reverse

/-- Model of `re.sub(r"\s+", "_", ·)`: each maximal run of whitespace becomes a
single underscore.  The boolean records whether we are inside a whitespace run. -/
def subWsRuns : List Char → Bool → List Char
  | [], _ => []
  | c :: cs, inRun =>
    if isPySpace c then
      (if inRun then subWsRuns cs true else '_' :: subWsRuns cs true)
    else c :: subWsRuns cs false

/-- Model of `re.sub(r"_+", "_", ·)`: each maximal run of underscores becomes a
single underscore. -/
def collapseUnd : List Char → Bool → List Char
  | [], _ => []
  | c :: cs, inRun =>
    if c = '_' then
      (if inRun then collapseUnd cs true else '_' :: collapseUnd cs true)
    else c :: collapseUnd cs false

/-- `sanitized_name` from the source: strip, replace whitespace runs with `_`,
then collapse underscore runs. -/
def sanitized_name (s : String) : String :=
  ⟨collapseUnd (subWsRuns (pyStrip s.data) false) false⟩

/-- Index of the last `.` in the list, if any (Python `str.rfind('.')`). -/
def rfindDotAux : List Char → Nat → Option Nat → Option Nat
  | [], _, acc => acc
  | c :: cs, i, acc => rfindDotAux cs (i + 1) (if c = '.' then some i else acc)

/-- `pathlib.PurePath.suffix` of a final path component: the part from the last
dot on, provided that dot is neither the first nor the last character. -/
def pySuffix (name : String) : String :=
  match rfindDotAux name.data 0 none with
  | some i => if 0 < i ∧ i + 1 < name.data.length then ⟨name.data.drop i⟩ else ""
  | none => ""

/-- `pathlib.PurePath.stem` of a final path component: the name without its
suffix. -/
def pyStem (name : String) : String :=
  match rfindDotAux name.data 0 none with
  | some i => if 0 < i ∧ i + 1 < name.data.length then ⟨name.data.take i⟩ else name
  | none => name

/-- Python `str.lower()`, ASCII range (all extensions in the tables are ASCII). -/
def pyLower (s : String) : String :=
  ⟨s.data.map Char.toLower⟩

/-- `PHOTO_EXT` from the source. -/
def PHOTO_EXT : List String :=
  [".jpg", ".jpeg", ".png", ".gif", ".bmp", ".thm", ".tiff", ".heic", ".heif",
   ".webp", ".arw", ".nef", ".cr2"]

/-- `VIDEO_EXT` from the source. -/
def VIDEO_EXT : List String :=
  [".mp4", ".mov", ".avi", ".mkv", ".wmv", ".flv", ".webm", ".mpeg", ".mpg", ".m4v"]

/-- `MUSIC_EXT` from the source. -/
def MUSIC_EXT : List String :=
  [".mp3", ".aac", ".flac", ".ogg", ".wav", ".m4a", ".wma"]

/-- `PROGRAM_EXT` from the source. -/
def PROGRAM_EXT : List String :=
  [".exe", ".msi", ".apk", ".deb", ".rpm", ".dmg", ".pkg", ".app", ".bat",
   ".sh", ".ps1", ".jar"]

/-- `CATEGORY_DIR` from the source: category key to destination folder name. -/
def CATEGORY_DIR : List (String × String) :=
  [("photo", "Фото"), ("video", "Видео"), ("music", "Музыка"),
   ("program", "Программы"), ("other", "Прочее")]

/-- The membership chain of `categorize` after the extension has been computed
and lower-cased. -/
def extCategory (ext : String) : String :=
  if ext ∈ PHOTO_EXT then "photo"
  else if ext ∈ VIDEO_EXT then "video"
  else if ext ∈ MUSIC_EXT then "music"
  else if ext ∈ PROGRAM_EXT then "program"
  else "other"

/-- `categorize` from the source: `ext = path.suffix.lower()` followed by the
membership chain. -/
def categorize (name : String) : String :=
  extCategory (pyLower (pySuffix name))

/-- Value of a decimal digit list (helper for parsing numeric fields). -/
def digitsToNat (l : List Char) : Option Nat :=
  if l ≠ [] ∧ l.all Char.isDigit then
    some (l.foldl (fun a c => a * 10 + (c.toNat - '0'.toNat)) 0)
  else none

/-- Python `str.split(sep)` for a single-character separator (empty pieces kept). -/
def splitOnCharAux (sep : Char) : List Char → List Char → List (List Char)
  | [], acc => [acc.reverse]
  | c :: cs, acc =>
    if c = sep then acc.reverse :: splitOnCharAux sep cs []
    else splitOnCharAux sep cs (c :: acc)

/-- Split a list of characters on a separator character. -/
def splitOnChar (sep : Char) (l : List Char) : List (List Char) :=
  splitOnCharAux sep l []

/-- Days in a month, with Gregorian leap years (as `datetime` validates). -/
def daysInMonth (y m : Nat) : Nat :=
  if m = 2 then (if (y % 4 = 0 ∧ y % 100 ≠ 0) ∨ y % 400 = 0 then 29 else 28)
  else if m = 4 ∨ m = 6 ∨ m = 9 ∨ m = 11 then 30 else 31

/-- Model of `datetime.strptime(s, "%Y:%m:%d %H:%M:%S")`: split on the space,
split both halves on `:`, parse the six decimal fields, validate calendar
ranges; any mismatch is Python's `ValueError`, modelled as `none`. -/
def strptimeExif (s : String) : Option PyDateTime :=
  match splitOnChar ' ' s.data with
  | [d, t] =>
    match splitOnChar ':' d, splitOnChar ':' t with
    | [ys, ms, ds], [hs, mis, ss] =>
      match digitsToNat ys, digitsToNat ms, digitsToNat ds,
            digitsToNat hs, digitsToNat mis, digitsToNat ss with
      | some y, some mo, some da, some h, some mi, some se =>
        if 1 ≤ mo ∧ mo ≤ 12 ∧ 1 ≤ da ∧ da ≤ daysInMonth y mo ∧
            h ≤ 23 ∧ mi ≤ 59 ∧ se ≤ 61 ∧ y ≤ 9999 then
          some ⟨y, mo, da, h, mi, se⟩
        else none
      | _, _, _, _, _, _ => none
    | _, _ => none
  | _ => none

/-- Left-pad the decimal representation of `n` with zeros to width `w`. -/
def padZeros (w n : Nat) : String :=
  ⟨List.replicate (w - (Nat.repr n).length) '0'⟩ ++ Nat.repr n

/-- Model of `dt.strftime("%Y%m%d_%H%M%S")`. -/
def pyStrftime (dt : PyDateTime) : String :=
  padZeros 4 dt.year ++ padZeros 2 dt.month ++ padZeros 2 dt.day ++ "_" ++
  padZeros 2 dt.hour ++ padZeros 2 dt.minute ++ padZeros 2 dt.second

/-- A source file, reduced to the attributes the script reads.  `exif` is the
EXIF `DateTimeOriginal`-or-`DateTime` string found in the file, `none` when the
file has no such field, is not an image, or Pillow is unavailable.  `readable`
says whether opening the file for hashing succeeds; `copy_ok` says whether the
copy primitive succeeds. -/
structure SrcFile where
  name : String
  content : List Nat
  mtime : PyDateTime
  exif : Option String
  readable : Bool
  copy_ok : Bool
deriving DecidableEq

/-- `compute_sha256` from the source.  The digest is modelled by the byte
content itself (SHA-256 idealized as collision-free; the script only compares
digests for equality).  An unreadable file raises `IOError`. -/
def compute_sha256 (f : SrcFile) : Except String (List Nat) :=
  if f.readable then Except.ok f.content else Except.error "IOError"

/-- `get_photo_datetime` from the source: take the EXIF datetime string if one
was found, parse it with `strptime`; every failure path yields `none`. -/
def get_photo_datetime (f : SrcFile) : Option PyDateTime :=
  match f.exif with
  | none => none
  | some s => strptimeExif s

/-- The datetime used to rename a media file: EXIF for photos when available,
otherwise the filesystem mtime (`dt = get_photo_datetime(...) if photo else
None; if dt is None: dt = fromtimestamp(st_mtime)`). -/
def mediaDt (f : SrcFile) (category : String) : PyDateTime :=
  ((if category = "photo" then get_photo_datetime f else none).getD f.mtime)

/-- The destination filename chosen in `organise`: photos and videos get
`<date>_<sanitized stem><lowercased suffix>`, every other category keeps the
original name (the source's `music` and `else` branches are identical). -/
def mkNewName (f : SrcFile) (category : String) : String :=
  if category = "photo" ∨ category = "video" then
    pyStrftime (mediaDt f category) ++ "_" ++ sanitized_name (pyStem f.name) ++
      pyLower (pySuffix f.name)
  else f.name

/-- The loop of `unique_path`: while the target exists, rebuild it as
`stem_counter ++ ext` and increment the counter.  The source's `while` is
unbounded; here it carries fuel, and `uniquePath` supplies enough fuel for the
loop to reach a free name (theorem `uniquePath_first_free` below shows the
returned name is always free, i.e. the fuel never runs out first). -/
def uniquePathAux (entries : List String) (stem ext : String) :
    Nat → Nat → String → String
  | _, 0, target => target
  | counter, fuel + 1, target =>
    if target ∈ entries then
      uniquePathAux entries stem ext (counter + 1) fuel
        (stem ++ "_" ++ Nat.repr counter ++ ext)
    else target

/-- `unique_path` from the source, against the list of names already present in
the destination directory: start at `filename`, then probe `stem_1.ext`,
`stem_2.ext`, ... until a non-existing name is found. -/
def uniquePath (entries : List String) (filename : String) : String :=
  uniquePathAux entries (pyStem filename) (pySuffix filename) 1
    (entries.length + 1) filename

/-- The n-th name probed by `unique_path`: the original filename, then
`stem_n ++ ext`. -/
def upCandidate (filename : String) : Nat → String
  | 0 => filename
  | i + 1 => pyStem filename ++ "_" ++ Nat.repr (i + 1) ++ pySuffix filename

/-- The mutable state of one `organise` run: `seen` is the dedup index
(`seen_hashes`, as (category, digest) pairs), `destEntries` the names present
in each category's destination directory (as (category, name) pairs), and
`copied` the (category, destination name, content) triples successfully
copied during the run. -/
structure OrgState where
  seen : List (String × List Nat)
  destEntries : List (String × String)
  copied : List (String × String × List Nat)
deriving DecidableEq

/-- Names present in one category's destination directory. -/
def entriesOf (s : OrgState) (category : String) : List String :=
  (s.destEntries.filter (fun e => e.1 == category)).map (fun e => e.2)

/-- The body of `organise`'s inner loop for one file.  A hashing failure is an
uncaught exception (`Except.error`); every other outcome returns the next
state.  Note the digest is added to `seen` *before* the copy is attempted,
exactly as in the source. -/
def processFile (f : SrcFile) (s : OrgState) : Except String OrgState :=
  let category := categorize f.name
  match compute_sha256 f with
  | Except.error e => Except.error e
  | Except.ok fhash =>
    if (category, fhash) ∈ s.seen then Except.ok s
    else
      let s1 : OrgState := ⟨(category, fhash) :: s.seen, s.destEntries, s.copied⟩
      let new_name := mkNewName f category
      let new_path := uniquePath (entriesOf s1 category) new_name
      if (category, new_path) ∈ s1.destEntries then Except.ok s1
      else if f.copy_ok then
        Except.ok ⟨s1.seen, (category, new_path) :: s1.destEntries,
          (category, new_path, f.content) :: s1.copied⟩
      else Except.ok s1

/-- `organise` from the source over the list of files produced by the walk of
the source tree.  The boolean reports whether the run was aborted by an
uncaught exception (an unreadable file during hashing); in that case the state
reached so far is returned and the remaining files are never processed. -/
def organise : List SrcFile → OrgState → OrgState × Bool
  | [], s => (s, false)
  | f :: fs, s =>
    match processFile f s with
    | Except.error _ => (s, true)
    | Except.ok s2 => organise fs s2

/-- A fresh destination root: empty dedup index, empty category directories,
nothing copied. -/
def initState : OrgState := ⟨[], [], []⟩

/-! ### String and decimal-representation helper lemmas -/

theorem string_eq_of_data_eq {a b : String} (h : a.data = b.data) : a = b := by
  cases a; cases b; subst h; rfl

theorem data_append_eq (s t : String) : (s ++ t).data = s.data ++ t.data :=
  String.data_append s t

/-- Numeric value of one decimal digit character. -/
def digitVal (c : Char) : Nat := c.toNat - '0'.toNat

/-- Numeric value of a decimal digit string, most significant first. -/
def valOfDigits (l : List Char) (a : Nat) : Nat :=
  l.foldl (fun x c => x * 10 + digitVal c) a

theorem valOfDigits_append (l1 l2 : List Char) (a : Nat) :
    valOfDigits (l1 ++ l2) a = valOfDigits l2 (valOfDigits l1 a) :=
  List.foldl_append _ a l1 l2

theorem digitVal_digitChar (r : Nat) (h : r < 10) : digitVal (Nat.digitChar r) = r := by
  interval_cases r <;> rfl

theorem toDigitsCore_acc (fuel : Nat) :
    ∀ (n : Nat) (ds : List Char),
      Nat.toDigitsCore 10 fuel n ds = Nat.toDigitsCore 10 fuel n [] ++ ds := by
  induction fuel with
  | zero => intro n ds; rfl
  | succ f ih =>
    intro n ds
    simp only [Nat.toDigitsCore]
    by_cases h : n / 10 = 0
    · simp [h]
    · simp only [if_neg h]
      rw [ih (n / 10) (Nat.digitChar (n % 10) :: ds),
        ih (n / 10) [Nat.digitChar (n % 10)], List.append_assoc]
      rfl

theorem toDigitsCore_length_pos (f n : Nat) :
    0 < (Nat.toDigitsCore 10 (f + 1) n []).length := by
  simp only [Nat.toDigitsCore]
  by_cases h : n / 10 = 0
  · simp [h]
  · simp only [if_neg h]
    rw [toDigitsCore_acc]
    simp

theorem repr_length_pos (n : Nat) : 0 < (Nat.repr n).data.length := by
  show 0 < (Nat.toDigitsCore 10 (n + 1) n []).length
  exact toDigitsCore_length_pos n n

theorem valOfDigits_toDigitsCore (fuel : Nat) :
    ∀ n a, n < fuel →
      valOfDigits (Nat.toDigitsCore 10 fuel n []) a =
        a * 10 ^ (Nat.toDigitsCore 10 fuel n []).length + n := by
  induction fuel with
  | zero => intro n a h; omega
  | succ f ih =>
    intro n a h
    simp only [Nat.toDigitsCore]
    by_cases h0 : n / 10 = 0
    · have hn : n % 10 = n := by omega
      have hlt10 : n < 10 := by omega
      simp [h0, valOfDigits, hn, digitVal_digitChar n hlt10]
    · rw [if_neg h0, toDigitsCore_acc]
      have hlt : n / 10 < f := by
        have h1 : n / 10 < n := Nat.div_lt_self (by omega) (by norm_num)
        omega
      rw [valOfDigits_append, ih (n / 10) a hlt]
      have hd : valOfDigits [Nat.digitChar (n % 10)]
          (a * 10 ^ (Nat.toDigitsCore 10 f (n / 10) []).length + n / 10) =
          (a * 10 ^ (Nat.toDigitsCore 10 f (n / 10) []).length + n / 10) * 10 + n % 10 := by
        simp [valOfDigits, digitVal_digitChar (n % 10) (Nat.mod_lt n (by omega))]
      rw [hd, List.length_append, List.length_singleton, pow_succ]
      have := Nat.div_add_mod n 10
      ring_nf
      omega

theorem valOfDigits_repr (n : Nat) : valOfDigits (Nat.repr n).data 0 = n := by
  show valOfDigits (Nat.toDigitsCore 10 (n + 1) n []) 0 = n
  rw [valOfDigits_toDigitsCore (n + 1) n 0 (by omega)]
  simp

theorem natRepr_injective : Function.Injective Nat.repr := by
  intro a b h
  have := congrArg (fun s => valOfDigits s.data 0) h
  simpa [valOfDigits_repr] using this

/-! ### Sanitizer lemmas -/

theorem mem_subWsRuns_not_space {l : List Char} {b : Bool} {c : Char}
    (h : c ∈ subWsRuns l b) : isPySpace c = false := by
  induction l generalizing b with
  | nil => simp [subWsRuns] at h
  | cons d ds ih =>
    by_cases hd : isPySpace d
    · cases b with
      | true =>
        simp only [subWsRuns, hd, if_true] at h
        exact ih h
      | false =>
        simp only [subWsRuns, hd, if_true, Bool.false_eq_true, if_false, List.mem_cons] at h
        rcases h with rfl | h
        · rfl
        · exact ih h
    · have hd2 : isPySpace d = false := by simpa using hd
      simp only [subWsRuns, hd2, Bool.false_eq_true, if_false, List.mem_cons] at h
      rcases h with rfl | h
      · exact hd2
      · exact ih h

theorem mem_collapseUnd_subset {l : List Char} {b : Bool} {c : Char}
    (h : c ∈ collapseUnd l b) : c ∈ l := by
  induction l generalizing b with
  | nil => simp [collapseUnd] at h
  | cons d ds ih =>
    by_cases hd : d = '_'
    · cases b with
      | true =>
        simp only [collapseUnd, hd, if_true] at h
        exact List.mem_cons_of_mem d (ih h)
      | false =>
        simp only [collapseUnd, hd, if_true, Bool.false_eq_true, if_false, List.mem_cons] at h
        rcases h with rfl | h
        · subst hd; exact List.mem_cons_self _ _
        · exact List.mem_cons_of_mem d (ih h)
    · simp only [collapseUnd, hd, if_false, List.mem_cons] at h
      rcases h with rfl | h
      · exact List.mem_cons_self _ _
      · exact List.mem_cons_of_mem d (ih h)

theorem dropWhile_eq_self_of_not {l : List Char} (p : Char → Bool)
    (h : ∀ c ∈ l, p c = false) : l.dropWhile p = l := by
  cases l with
  | nil => rfl
  | cons c cs => simp [List.dropWhile_cons, h c (List.mem_cons_self c cs)]

theorem pyStrip_of_no_space {l : List Char}
    (h : ∀ c ∈ l, isPySpace c = false) : pyStrip l = l := by
  unfold pyStrip
  rw [dropWhile_eq_self_of_not isPySpace h,
    dropWhile_eq_self_of_not isPySpace (by intro c hc; exact h c (List.mem_reverse.1 hc)),
    List.reverse_reverse]

theorem subWsRuns_of_no_space {l : List Char} (b : Bool)
    (h : ∀ c ∈ l, isPySpace c = false) : subWsRuns l b = l := by
  induction l generalizing b with
  | nil => rfl
  | cons c cs ih =>
    have hc : isPySpace c = false := h c (List.mem_cons_self c cs)
    simp only [subWsRuns, hc, Bool.false_eq_true, if_false, List.cons.injEq, true_and]
    exact ih false (fun d hd => h d (List.mem_cons_of_mem c hd))

theorem collapseUnd_idem (l : List Char) :
    ∀ b, collapseUnd (collapseUnd l b) b = collapseUnd l b := by
  induction l with
  | nil => intro b; rfl
  | cons c cs ih =>
    intro b
    by_cases hc : c = '_'
    · subst hc
      cases b with
      | true =>
        show collapseUnd (collapseUnd cs true) true = collapseUnd cs true
        exact ih true
      | false =>
        show collapseUnd ('_' :: collapseUnd cs true) false = '_' :: collapseUnd cs true
        show (if '_' = '_' then (if (false : Bool) then _ else '_' :: collapseUnd (collapseUnd cs true) true) else _) = _
        rw [if_pos rfl, if_neg (by simp), ih true]
    · simp only [collapseUnd, hc, if_false]
      rw [ih false]

theorem sanitize_no_space (s : String) :
    ∀ c ∈ (sanitized_name s).data, isPySpace c = false := by
  intro c hc
  exact mem_subWsRuns_not_space (mem_collapseUnd_subset hc)

theorem sanitized_name_idem (s : String) :
    sanitized_name (sanitized_name s) = sanitized_name s := by
  have hns : ∀ c ∈ (sanitized_name s).data, isPySpace c = false := sanitize_no_space s
  show (⟨collapseUnd (subWsRuns (pyStrip (sanitized_name s).data) false) false⟩ : String)
      = sanitized_name s
  rw [pyStrip_of_no_space hns, subWsRuns_of_no_space false hns]
  show (⟨collapseUnd (collapseUnd (subWsRuns (pyStrip s.data) false) false) false⟩ : String)
      = sanitized_name s
  rw [collapseUnd_idem]
  rfl

/-! ### Stem/suffix decomposition and unique-path lemmas -/

theorem pyStem_data_append_pySuffix_data (name : String) :
    (pyStem name).data ++ (pySuffix name).data = name.data := by
  unfold pyStem pySuffix
  cases hr : rfindDotAux name.data 0 none with
  | none => simp
  | some i =>
    by_cases hc : 0 < i ∧ i + 1 < name.data.length
    · simp only [hc, if_pos]
      exact List.take_append_drop i name.data
    · simp only [hc, if_neg, not_false_iff]
      simp

theorem upCandidate_length_zero (filename : String) :
    (upCandidate filename 0).data.length
      = (pyStem filename).data.length + (pySuffix filename).data.length := by
  show filename.data.length = _
  rw [← pyStem_data_append_pySuffix_data filename, List.length_append]

theorem upCandidate_data_succ (filename : String) (i : Nat) :
    (upCandidate filename (i + 1)).data
      = (pyStem filename).data ++ ('_' :: ((Nat.repr (i + 1)).data ++ (pySuffix filename).data)) := by
  show (pyStem filename ++ "_" ++ Nat.repr (i + 1) ++ pySuffix filename).data = _
  rw [data_append_eq, data_append_eq, data_append_eq, List.append_assoc, List.append_assoc]
  rfl

theorem upCandidate_injective (filename : String) :
    Function.Injective (upCandidate filename) := by
  have hlen : ∀ j : Nat, (upCandidate filename (j + 1)).data.length
      = (pyStem filename).data.length + 1 + (Nat.repr (j + 1)).data.length
        + (pySuffix filename).data.length := by
    intro j
    rw [upCandidate_data_succ]
    simp [List.length_append]
    omega
  intro i j h
  match i, j with
  | 0, 0 => rfl
  | 0, j + 1 =>
    have h0 := upCandidate_length_zero filename
    have h1 := hlen j
    have h2 := congrArg (fun s => s.data.length) h
    have h3 := repr_length_pos (j + 1)
    simp only at h2
    omega
  | i + 1, 0 =>
    have h0 := upCandidate_length_zero filename
    have h1 := hlen i
    have h2 := congrArg (fun s => s.data.length) h
    have h3 := repr_length_pos (i + 1)
    simp only at h2
    omega
  | i + 1, j + 1 =>
    have h2 := congrArg String.data h
    rw [upCandidate_data_succ, upCandidate_data_succ] at h2
    have h3 := List.append_cancel_left h2
    have h4 : (Nat.repr (i + 1)).data ++ (pySuffix filename).data
        = (Nat.repr (j + 1)).data ++ (pySuffix filename).data := by
      injection h3
    have h5 := List.append_cancel_right h4
    have h6 : Nat.repr (i + 1) = Nat.repr (j + 1) := string_eq_of_data_eq h5
    have := natRepr_injective h6
    omega

theorem exists_free_candidate (entries : List String) (filename : String) :
    ∃ i, i ≤ entries.length ∧ upCandidate filename i ∉ entries := by
  by_contra hcon
  push_neg at hcon
  have hsub : (Finset.range (entries.length + 1)).image (upCandidate filename)
      ⊆ entries.toFinset := by
    intro x hx
    rcases Finset.mem_image.1 hx with ⟨i, hi, rfl⟩
    exact List.mem_toFinset.2 (hcon i (by
      have := Finset.mem_range.1 hi
      omega))
  have hcard := Finset.card_le_card hsub
  rw [Finset.card_image_of_injective _ (upCandidate_injective filename),
    Finset.card_range] at hcard
  have := List.toFinset_card_le entries
  omega

theorem uniquePathAux_spec (entries : List String) (filename : String) :
    ∀ (fuel c : Nat), 1 ≤ c →
      (∀ j, j < c - 1 → upCandidate filename j ∈ entries) →
      (∃ i, c - 1 ≤ i ∧ i < c - 1 + fuel ∧ upCandidate filename i ∉ entries) →
      ∃ i, uniquePathAux entries (pyStem filename) (pySuffix filename) c fuel
            (upCandidate filename (c - 1)) = upCandidate filename i ∧
        upCandidate filename i ∉ entries ∧
        ∀ j, j < i → upCandidate filename j ∈ entries := by
  intro fuel
  induction fuel with
  | zero =>
    intro c _ _ hex
    rcases hex with ⟨i, h1, h2, _⟩
    omega
  | succ f ih =>
    intro c hc hbelow hex
    by_cases hmem : upCandidate filename (c - 1) ∈ entries
    · have hnext : (pyStem filename ++ "_" ++ Nat.repr c ++ pySuffix filename)
          = upCandidate filename c := by
        obtain ⟨c2, rfl⟩ : ∃ c2, c = c2 + 1 := ⟨c - 1, by omega⟩
        rfl
      have step : uniquePathAux entries (pyStem filename) (pySuffix filename) c (f + 1)
            (upCandidate filename (c - 1))
          = uniquePathAux entries (pyStem filename) (pySuffix filename) (c + 1) f
            (upCandidate filename ((c + 1) - 1)) := by
        simp only [uniquePathAux, hmem, if_pos]
        rw [hnext]
        simp
      rw [step]
      apply ih (c + 1) (by omega)
      · intro j hj
        by_cases hjc : j < c - 1
        · exact hbelow j hjc
        · have : j = c - 1 := by omega
          subst this
          exact hmem
      · rcases hex with ⟨i, h1, h2, h3⟩
        refine ⟨i, by
          rcases Nat.eq_or_lt_of_le h1 with heq | hlt
          · exfalso; rw [heq] at hmem; exact h3 hmem
          · omega, by omega, h3⟩
    · refine ⟨c - 1, ?_, hmem, hbelow⟩
      simp only [uniquePathAux, hmem, Bool.false_eq_true, if_neg, not_false_iff]

theorem uniquePath_first_free (entries : List String) (filename : String) :
    ∃ i, uniquePath entries filename = upCandidate filename i ∧
      upCandidate filename i ∉ entries ∧
      ∀ j, j < i → upCandidate filename j ∈ entries := by
  rcases exists_free_candidate entries filename with ⟨i, hi, hfree⟩
  have h := uniquePathAux_spec entries filename (entries.length + 1) 1 (by omega)
    (by intro j hj; omega)
    ⟨i, by omega, by omega, hfree⟩
  simpa [uniquePath, upCandidate] using h

/-! ### Organizer lemmas -/

theorem compute_sha256_ok {f : SrcFile} {d : List Nat}
    (h : compute_sha256 f = Except.ok d) : d = f.content := by
  unfold compute_sha256 at h
  by_cases hr : f.readable
  · rw [if_pos hr] at h
    injection h with h
    exact h.symm
  · rw [if_neg hr] at h
    cases h

/-- Exhaustive description of the successful outcomes of `processFile`:
the file is skipped as a duplicate, or its digest is recorded and the copy is
not performed (target existed, or the copy failed), or its digest is recorded
and the copy succeeded. -/
theorem processFile_ok_cases {f : SrcFile} {s s2 : OrgState}
    (h : processFile f s = Except.ok s2) :
    (s2 = s ∧ (categorize f.name, f.content) ∈ s.seen) ∨
    ((categorize f.name, f.content) ∉ s.seen ∧
      (s2 = ⟨(categorize f.name, f.content) :: s.seen, s.destEntries, s.copied⟩ ∨
        ∃ np, s2 = ⟨(categorize f.name, f.content) :: s.seen,
            (categorize f.name, np) :: s.destEntries,
            (categorize f.name, np, f.content) :: s.copied⟩ ∧
          (categorize f.name, np) ∉ s.destEntries ∧ f.copy_ok = true)) := by
  rcases hcs : compute_sha256 f with e | d
  · simp only [processFile, hcs] at h
    cases h
  · have hd := compute_sha256_ok hcs
    subst hd
    simp only [processFile, hcs] at h
    by_cases hseen : (categorize f.name, f.content) ∈ s.seen
    · rw [if_pos hseen] at h
      injection h with h
      exact Or.inl ⟨h.symm, hseen⟩
    · rw [if_neg hseen] at h
      refine Or.inr ⟨hseen, ?_⟩
      by_cases hex : (categorize f.name,
          uniquePath (entriesOf ⟨(categorize f.name, f.content) :: s.seen,
            s.destEntries, s.copied⟩ (categorize f.name))
            (mkNewName f (categorize f.name))) ∈ s.destEntries
      · rw [if_pos hex] at h
        injection h with h
        exact Or.inl h.symm
      · rw [if_neg hex] at h
        by_cases hcp : f.copy_ok
        · rw [if_pos hcp] at h
          injection h with h
          exact Or.inr ⟨_, h.symm, hex, hcp⟩
        · rw [if_neg hcp] at h
          injection h with h
          exact Or.inl h.symm

/-- The dedup invariant: every copied triple's (category, digest) key is in the
dedup index, and no two copied triples share a (category, digest) key. -/
def DedupInv (s : OrgState) : Prop :=
  (∀ e ∈ s.copied, (e.1, e.2.2) ∈ s.seen) ∧
  s.copied.Pairwise (fun a b => ¬(a.1 = b.1 ∧ a.2.2 = b.2.2))

theorem processFile_dedupInv {f : SrcFile} {s s2 : OrgState}
    (hinv : DedupInv s) (h : processFile f s = Except.ok s2) : DedupInv s2 := by
  rcases processFile_ok_cases h with ⟨rfl, _⟩ | ⟨hseen, hcase⟩
  · exact hinv
  · rcases hcase with rfl | ⟨np, rfl, _, _⟩
    · exact ⟨fun e he => List.mem_cons_of_mem _ (hinv.1 e he), hinv.2⟩
    · constructor
      · intro e he
        rcases List.mem_cons.1 he with rfl | he
        · exact List.mem_cons_self _ _
        · exact List.mem_cons_of_mem _ (hinv.1 e he)
      · refine List.Pairwise.cons ?_ hinv.2
        intro b hb hcontra
        have hsb := hinv.1 b hb
        rw [← hcontra.1, ← hcontra.2] at hsb
        exact hseen hsb

theorem organise_dedupInv (files : List SrcFile) :
    ∀ s : OrgState, DedupInv s → DedupInv (organise files s).1 := by
  induction files with
  | nil => intro s h; exact h
  | cons f fs ih =>
    intro s h
    rcases hp : processFile f s with e | s2
    · simp only [organise, hp]
      exact h
    · simp only [organise, hp]
      exact ih s2 (processFile_dedupInv h hp)

theorem uniquePath_nil (n : String) : uniquePath [] n = n := rfl

theorem processFile_unreadable (f : SrcFile) (s : OrgState) (hr : f.readable = false) :
    processFile f s = Except.error "IOError" := by
  simp [processFile, compute_sha256, hr]

theorem sanitize_all_space (s : String) (h : ∀ c ∈ s.data, isPySpace c = true) :
    sanitized_name s = "" := by
  have hstrip : pyStrip s.data = [] := by
    unfold pyStrip
    rw [List.dropWhile_eq_nil_iff.2 (fun c hc => h c hc)]
    rfl
  show (⟨collapseUnd (subWsRuns (pyStrip s.data) false) false⟩ : String) = ""
  rw [hstrip]
  rfl

/-! ### Claim theorems -/

/-- Claim C1, counterexample: the claim says a failed copy must not mark the
fingerprint as seen.  Here is a single file whose copy fails (`copy_ok :=
false`): after the run its fingerprint *is* in the dedup index for its
category although nothing was copied, and a second byte-identical file of the
same category in the same run is then skipped, so it is not copied either. -/
theorem claim1_failed_copy_cex :
    ((organise [⟨"a.txt", [1], ⟨2000, 1, 1, 0, 0, 0⟩, none, true, false⟩]
        initState).1.seen = [("other", [1])] ∧
      (organise [⟨"a.txt", [1], ⟨2000, 1, 1, 0, 0, 0⟩, none, true, false⟩]
        initState).1.copied = []) ∧
    (organise [⟨"a.txt", [1], ⟨2000, 1, 1, 0, 0, 0⟩, none, true, false⟩,
        ⟨"b.txt", [1], ⟨2000, 1, 1, 0, 0, 0⟩, none, true, true⟩]
      initState).1.copied = [] := by
  decide

/-- Claim C1, amended: the source adds the fingerprint to the dedup index
*before* the copy is attempted, so when the copy of a non-duplicate file
fails, the fingerprint is nevertheless recorded for the file's category (and
nothing is added to the copies); consequently a later byte-identical file of
the same category within the same run is skipped as a duplicate. -/
theorem claim1_fingerprint_recorded_despite_failed_copy
    (f : SrcFile) (s s2 : OrgState)
    (_hr : f.readable = true) (hk : f.copy_ok = false)
    (hp : processFile f s = Except.ok s2) :
    ((categorize f.name, f.content) ∈ s2.seen ∧ s2.copied = s.copied) ∧
    ∀ g : SrcFile, g.readable = true → categorize g.name = categorize f.name →
      g.content = f.content → processFile g s2 = Except.ok s2 := by
  have hmain : (categorize f.name, f.content) ∈ s2.seen ∧ s2.copied = s.copied := by
    rcases processFile_ok_cases hp with ⟨rfl, hseen⟩ | ⟨hseen, hcase⟩
    · exact ⟨hseen, rfl⟩
    · rcases hcase with rfl | ⟨np, rfl, _, hcp⟩
      · exact ⟨List.mem_cons_self _ _, rfl⟩
      · rw [hk] at hcp
        cases hcp
  refine ⟨hmain, ?_⟩
  intro g hgr hgc hgcont
  have hg : compute_sha256 g = Except.ok g.content := by
    simp [compute_sha256, hgr]
  have hseen2 : (categorize g.name, g.content) ∈ s2.seen := by
    rw [hgc, hgcont]
    exact hmain.1
  simp only [processFile, hg, hseen2, if_pos]

/-- Witness for the amended claim C1 at a concrete input. -/
theorem claim1_witness :
    (⟨"a.txt", [1], ⟨2000, 1, 1, 0, 0, 0⟩, none, true, false⟩ : SrcFile).readable = true ∧
    (⟨"a.txt", [1], ⟨2000, 1, 1, 0, 0, 0⟩, none, true, false⟩ : SrcFile).copy_ok = false ∧
    ((categorize "a.txt", [1]) ∈ (⟨[("other", [1])], [], []⟩ : OrgState).seen ∧
      (⟨[("other", [1])], [], []⟩ : OrgState).copied = initState.copied) := by
  refine ⟨rfl, rfl, ?_⟩
  have h := claim1_fingerprint_recorded_despite_failed_copy
    ⟨"a.txt", [1], ⟨2000, 1, 1, 0, 0, 0⟩, none, true, false⟩
    initState ⟨[("other", [1])], [], []⟩ rfl rfl rfl
  exact ⟨h.1.1, h.1.2⟩

/-- Claim C2, counterexample: the claim says a file that cannot be read during
hashing is skipped and the run continues.  Here an unreadable file is followed
by a perfectly good file: the run aborts at the unreadable file with the state
unchanged, and the good file — which a run by itself does copy — is never
processed. -/
theorem claim2_read_error_cex :
    organise [⟨"u.txt", [5], ⟨2000, 1, 1, 0, 0, 0⟩, none, false, true⟩,
        ⟨"g.txt", [6], ⟨2000, 1, 1, 0, 0, 0⟩, none, true, true⟩]
      initState = (initState, true) ∧
    (organise [⟨"g.txt", [6], ⟨2000, 1, 1, 0, 0, 0⟩, none, true, true⟩]
      initState).1.copied = [("other", "g.txt", [6])] := by
  decide

/-- Claim C2, amended: a file that cannot be opened or read during hashing
raises an exception that `organise` does not catch (only the copy is inside a
`try` block): the run aborts at that file, the state already reached is kept,
and no later file is processed.  Only copy failures are file-scoped. -/
theorem claim2_read_error_aborts_run (f : SrcFile) (fs : List SrcFile) (s : OrgState)
    (hr : f.readable = false) : organise (f :: fs) s = (s, true) := by
  simp only [organise, processFile_unreadable f s hr]

/-- Witness for the amended claim C2 at a concrete input. -/
theorem claim2_witness :
    (⟨"u.txt", [5], ⟨2000, 1, 1, 0, 0, 0⟩, none, false, true⟩ : SrcFile).readable = false ∧
    organise [⟨"u.txt", [5], ⟨2000, 1, 1, 0, 0, 0⟩, none, false, true⟩,
        ⟨"g.txt", [6], ⟨2000, 1, 1, 0, 0, 0⟩, none, true, true⟩]
      initState = (initState, true) :=
  ⟨rfl, claim2_read_error_aborts_run
    ⟨"u.txt", [5], ⟨2000, 1, 1, 0, 0, 0⟩, none, false, true⟩
    [⟨"g.txt", [6], ⟨2000, 1, 1, 0, 0, 0⟩, none, true, true⟩] initState rfl⟩

/-- Claim C5: a photo file with embedded EXIF capture time
`2021:05:02 14:30:00` and original name `my photo.jpg` is classified as a
photo and copied under the destination filename
`20210502_143000_my_photo.jpg` (timestamp `YYYYMMDD_HHMMSS`, stem sanitized,
extension lower-cased). -/
theorem claim5_rename_photo_with_exif :
    categorize "my photo.jpg" = "photo" ∧
    (organise [⟨"my photo.jpg", [7], ⟨2000, 1, 1, 0, 0, 0⟩,
        some "2021:05:02 14:30:00", true, true⟩] initState).1.copied
      = [("photo", "20210502_143000_my_photo.jpg", [7])] := by
  decide

/-- Claim C6: for every destination directory (a finite list of existing
entries) and every filename, `unique_path` returns the first name in the
probe sequence `filename, stem_1.ext, stem_2.ext, ...` that is not among the
existing entries — in particular the loop terminates with a free name. -/
theorem claim6_unique_path_first_free (entries : List String) (filename : String) :
    ∃ i, uniquePath entries filename = upCandidate filename i ∧
      upCandidate filename i ∉ entries ∧
      ∀ j, j < i → upCandidate filename j ∈ entries :=
  uniquePath_first_free entries filename

/-- Witness for claim C6 at a concrete input. -/
theorem claim6_witness :
    ∃ i, uniquePath ["a.txt", "a_1.txt"] "a.txt" = upCandidate "a.txt" i ∧
      upCandidate "a.txt" i ∉ ["a.txt", "a_1.txt"] ∧
      ∀ j, j < i → upCandidate "a.txt" j ∈ ["a.txt", "a_1.txt"] :=
  claim6_unique_path_first_free ["a.txt", "a_1.txt"] "a.txt"

/-- Claim C7: the name sanitizer is idempotent — sanitizing an already
sanitized string changes nothing. -/
theorem claim7_sanitize_idempotent (s : String) :
    sanitized_name (sanitized_name s) = sanitized_name s :=
  sanitized_name_idem s

/-- Claim C3: after one run started with nothing copied, no two copied triples
share both their category and their byte content — of any two same-category
byte-identical source files, at most one is copied. -/
theorem claim3_no_duplicate_per_category (files : List SrcFile) (s0 : OrgState)
    (h : s0.copied = []) :
    ((organise files s0).1.copied).Pairwise
      (fun a b => ¬(a.1 = b.1 ∧ a.2.2 = b.2.2)) := by
  have hinv : DedupInv s0 := by
    constructor
    · intro e he
      rw [h] at he
      cases he
    · rw [h]
      exact List.Pairwise.nil
  exact (organise_dedupInv files s0 hinv).2

/-- Witness for claim C3 at a concrete input: two byte-identical photos. -/
theorem claim3_witness :
    initState.copied = [] ∧
    ((organise [⟨"a.jpg", [1], ⟨2000, 1, 1, 0, 0, 0⟩, none, true, true⟩,
        ⟨"b.jpg", [1], ⟨2000, 1, 1, 0, 0, 0⟩, none, true, true⟩]
      initState).1.copied).Pairwise
      (fun a b => ¬(a.1 = b.1 ∧ a.2.2 = b.2.2)) :=
  ⟨rfl, claim3_no_duplicate_per_category _ initState rfl⟩

/-- Claim C4: two readable files with identical byte content that classify
into different categories are both copied in one run on a fresh destination —
deduplication is per category, never global. -/
theorem claim4_cross_category_independence
    (f1 f2 : SrcFile)
    (_hcontent : f1.content = f2.content)
    (hcat : categorize f1.name ≠ categorize f2.name)
    (hr1 : f1.readable = true) (hr2 : f2.readable = true)
    (hk1 : f1.copy_ok = true) (hk2 : f2.copy_ok = true) :
    (∃ n1, (categorize f1.name, n1, f1.content) ∈ (organise [f1, f2] initState).1.copied) ∧
    (∃ n2, (categorize f2.name, n2, f2.content) ∈ (organise [f1, f2] initState).1.copied) := by
  have hcat2 : ¬(categorize f2.name = categorize f1.name) := fun h => hcat h.symm
  have hbe : (categorize f1.name == categorize f2.name) = false := beq_eq_false_iff_ne.2 hcat
  have hh1 : compute_sha256 f1 = Except.ok f1.content := by simp [compute_sha256, hr1]
  have hh2 : compute_sha256 f2 = Except.ok f2.content := by simp [compute_sha256, hr2]
  have hstep1 : processFile f1 initState = Except.ok
      ⟨[(categorize f1.name, f1.content)],
        [(categorize f1.name, mkNewName f1 (categorize f1.name))],
        [(categorize f1.name, mkNewName f1 (categorize f1.name), f1.content)]⟩ := by
    simp [processFile, hh1, initState, entriesOf, uniquePath_nil, hk1]
  have hstep2 : processFile f2
      ⟨[(categorize f1.name, f1.content)],
        [(categorize f1.name, mkNewName f1 (categorize f1.name))],
        [(categorize f1.name, mkNewName f1 (categorize f1.name), f1.content)]⟩ = Except.ok
      ⟨[(categorize f2.name, f2.content), (categorize f1.name, f1.content)],
        [(categorize f2.name, mkNewName f2 (categorize f2.name)),
          (categorize f1.name, mkNewName f1 (categorize f1.name))],
        [(categorize f2.name, mkNewName f2 (categorize f2.name), f2.content),
          (categorize f1.name, mkNewName f1 (categorize f1.name), f1.content)]⟩ := by
    simp [processFile, hh2, entriesOf, uniquePath_nil, hk2, hcat2, hbe]
  have hrun : (organise [f1, f2] initState).1.copied
      = [(categorize f2.name, mkNewName f2 (categorize f2.name), f2.content),
          (categorize f1.name, mkNewName f1 (categorize f1.name), f1.content)] := by
    simp only [organise, hstep1, hstep2]
  rw [hrun]
  exact ⟨⟨mkNewName f1 (categorize f1.name), by simp⟩,
         ⟨mkNewName f2 (categorize f2.name), by simp⟩⟩

/-- Witness for claim C4 at a concrete input: the same bytes as a `.jpg` and
as an `.mp3`. -/
theorem claim4_witness :
    (∃ n1, (categorize "x.jpg", n1, [9]) ∈
      (organise [⟨"x.jpg", [9], ⟨2000, 1, 1, 0, 0, 0⟩, none, true, true⟩,
          ⟨"x.mp3", [9], ⟨2000, 1, 1, 0, 0, 0⟩, none, true, true⟩]
        initState).1.copied) ∧
    (∃ n2, (categorize "x.mp3", n2, [9]) ∈
      (organise [⟨"x.jpg", [9], ⟨2000, 1, 1, 0, 0, 0⟩, none, true, true⟩,
          ⟨"x.mp3", [9], ⟨2000, 1, 1, 0, 0, 0⟩, none, true, true⟩]
        initState).1.copied) :=
  claim4_cross_category_independence
    ⟨"x.jpg", [9], ⟨2000, 1, 1, 0, 0, 0⟩, none, true, true⟩
    ⟨"x.mp3", [9], ⟨2000, 1, 1, 0, 0, 0⟩, none, true, true⟩
    rfl (by decide) rfl rfl rfl rfl

/-- Claim C8: the classifier is a total function of the filename alone that
depends only on the lower-cased extension — a missing suffix classifies as
`other`, an extension in none of the four tables classifies as `other`, and
two filenames with the same lower-cased suffix get the same category. -/
theorem claim8_classifier_extension_only :
    (∀ name, pySuffix name = "" → categorize name = "other") ∧
    (∀ name, pyLower (pySuffix name) ∉ PHOTO_EXT → pyLower (pySuffix name) ∉ VIDEO_EXT →
      pyLower (pySuffix name) ∉ MUSIC_EXT → pyLower (pySuffix name) ∉ PROGRAM_EXT →
      categorize name = "other") ∧
    (∀ a b, pyLower (pySuffix a) = pyLower (pySuffix b) → categorize a = categorize b) := by
  refine ⟨?_, ?_, ?_⟩
  · intro name h
    show extCategory (pyLower (pySuffix name)) = "other"
    rw [h]
    decide
  · intro name h1 h2 h3 h4
    show extCategory (pyLower (pySuffix name)) = "other"
    unfold extCategory
    rw [if_neg h1, if_neg h2, if_neg h3, if_neg h4]
  · intro a b h
    show extCategory (pyLower (pySuffix a)) = extCategory (pyLower (pySuffix b))
    rw [h]

/-- Witness for claim C8 at concrete inputs. -/
theorem claim8_witness :
    categorize "README" = "other" ∧ categorize "archive.zip" = "other" ∧
    categorize "A.JPG" = categorize "b.jpg" :=
  ⟨claim8_classifier_extension_only.1 "README" (by decide),
   claim8_classifier_extension_only.2.1 "archive.zip"
     (by decide) (by decide) (by decide) (by decide),
   claim8_classifier_extension_only.2.2 "A.JPG" "b.jpg" (by decide)⟩

/-- Claim C9: the pipeline is deterministic — two runs over the same file
list into two fresh destination roots produce the same copied
(category, destination name, content) triples and the same outcome flag. -/
theorem claim9_deterministic (files : List SrcFile) (s1 s2 : OrgState)
    (h1 : s1 = initState) (h2 : s2 = initState) :
    (organise files s1).1.copied = (organise files s2).1.copied ∧
    (organise files s1).2 = (organise files s2).2 := by
  subst h1
  subst h2
  exact ⟨rfl, rfl⟩

/-- Witness for claim C9 at a concrete input. -/
theorem claim9_witness :
    (organise [⟨"x.jpg", [9], ⟨2000, 1, 1, 0, 0, 0⟩, none, true, true⟩]
      initState).1.copied =
    (organise [⟨"x.jpg", [9], ⟨2000, 1, 1, 0, 0, 0⟩, none, true, true⟩]
      initState).1.copied :=
  (claim9_deterministic
    [⟨"x.jpg", [9], ⟨2000, 1, 1, 0, 0, 0⟩, none, true, true⟩]
    initState initState rfl rfl).1

/-- Claim C10: sanitizing a string made only of whitespace (including the
empty string) yields the empty string; consequently a photo or video whose
original stem is all whitespace is renamed `<timestamp>_<ext>` with nothing
between the underscore and the (lower-cased) extension. -/
theorem claim10_all_whitespace_stem :
    (∀ s : String, (∀ c ∈ s.data, isPySpace c = true) → sanitized_name s = "") ∧
    (∀ (f : SrcFile) (cat : String), (cat = "photo" ∨ cat = "video") →
      (∀ c ∈ (pyStem f.name).data, isPySpace c = true) →
      mkNewName f cat = pyStrftime (mediaDt f cat) ++ "_" ++ pyLower (pySuffix f.name)) := by
  refine ⟨sanitize_all_space, ?_⟩
  intro f cat hcat hws
  simp only [mkNewName, if_pos hcat]
  rw [sanitize_all_space _ hws]
  simp

/-- Witness for claim C10 at a concrete input: a photo named `  .jpg` whose
stem is two spaces. -/
theorem claim10_witness :
    sanitized_name "  " = "" ∧
    mkNewName ⟨"  .jpg", [3], ⟨2020, 1, 15, 9, 0, 0⟩, none, true, true⟩ "photo"
      = pyStrftime (mediaDt ⟨"  .jpg", [3], ⟨2020, 1, 15, 9, 0, 0⟩, none, true, true⟩ "photo")
        ++ "_" ++ pyLower (pySuffix "  .jpg") :=
  ⟨claim10_all_whitespace_stem.1 "  " (by decide),
   claim10_all_whitespace_stem.2 ⟨"  .jpg", [3], ⟨2020, 1, 15, 9, 0, 0⟩, none, true, true⟩
     "photo" (Or.inl rfl) (by decide)⟩
